import Mathlib

/-!
Verification development for the easy-otp repository.

The Python sources under `src/` are shallowly embedded: Python dicts become
association lists that keep insertion order, machine-independent Python
integers become `Nat`/`Int`, floats (only used for the progress fraction)
become `ℚ`, and fallible operations return `Option` or a `Bool × state`
pair.  The pyotp library calls made by `src/core/otp_manager.py` are
embedded by their documented behaviour: Base32 secret decoding
(`byte_secret`), HMAC-based dynamic truncation (`generate_otp`), and the
SHA-1 default digest used when no `digest` argument is passed.
-/

namespace EasyOtp

/-! ## Bytes and 32-bit words -/

/-- Truncate to a 32-bit word. -/
def w32 (x : Nat) : Nat := x % 4294967296

/-- Rotate a 32-bit word left by `n` (for `x < 2^32`, `n ≤ 32`). -/
def rotl32 (n x : Nat) : Nat := w32 ((x <<< n) ||| (x >>> (32 - n)))

/-- Rotate a 32-bit word right by `n`. -/
def rotr32 (n x : Nat) : Nat := w32 ((x >>> n) ||| (x <<< (32 - n)))

/-- Big-endian 32-bit words from a byte list (length a multiple of 4). -/
def bytesToWords32 : List Nat → List Nat
  | a :: b :: c :: d :: rest =>
      (((a * 256 + b) * 256 + c) * 256 + d) :: bytesToWords32 rest
  | _ => []

/-- Big-endian bytes of a 32-bit word. -/
def word32Bytes (x : Nat) : List Nat :=
  [(x >>> 24) &&& 255, (x >>> 16) &&& 255, (x >>> 8) &&& 255, x &&& 255]

/-- Big-endian 8-byte encoding of a 64-bit value (pyotp `int_to_bytestring`
with its default padding of 8). -/
def be64 (x : Nat) : List Nat :=
  [(x >>> 56) &&& 255, (x >>> 48) &&& 255, (x >>> 40) &&& 255,
   (x >>> 32) &&& 255, (x >>> 24) &&& 255, (x >>> 16) &&& 255,
   (x >>> 8) &&& 255, x &&& 255]

/-- Merkle–Damgård padding shared by SHA-1 and SHA-256: append `0x80`,
zeros, and the 64-bit big-endian bit length, to a multiple of 64 bytes. -/
def shaPad (msg : List Nat) : List Nat :=
  let l := msg.length
  msg ++ 128 :: List.replicate ((64 - ((l + 9) % 64)) % 64) 0 ++ be64 (8 * l)

/-- Split a word list into 16-word blocks (the padded input is always a
whole number of blocks). -/
def chunk16 : List Nat → List (List Nat)
  | w1 :: w2 :: w3 :: w4 :: w5 :: w6 :: w7 :: w8 ::
    w9 :: w10 :: w11 :: w12 :: w13 :: w14 :: w15 :: w16 :: rest =>
      [w1, w2, w3, w4, w5, w6, w7, w8, w9, w10, w11, w12, w13, w14, w15, w16] ::
        chunk16 rest
  | _ => []

/-! ## SHA-1 -/

structure Sha1St where
  a : Nat
  b : Nat
  c : Nat
  d : Nat
  e : Nat

def sha1Init : Sha1St :=
  ⟨0x67452301, 0xEFCDAB89, 0x98BADCFE, 0x10325476, 0xC3D2E1F0⟩

/-- Extend a 16-word block to the 80-word SHA-1 schedule (`n` more words). -/
def sha1Extend : List Nat → Nat → List Nat
  | ws, 0 => ws
  | ws, n + 1 =>
      let len := ws.length
      let w := rotl32 1 ((ws.getD (len - 3) 0) ^^^ (ws.getD (len - 8) 0) ^^^
        (ws.getD (len - 14) 0) ^^^ (ws.getD (len - 16) 0))
      sha1Extend (ws ++ [w]) n

def sha1F (i b c d : Nat) : Nat :=
  if i < 20 then (b &&& c) ||| ((b ^^^ 4294967295) &&& d)
  else if i < 40 then b ^^^ c ^^^ d
  else if i < 60 then (b &&& c) ||| (b &&& d) ||| (c &&& d)
  else b ^^^ c ^^^ d

def sha1K (i : Nat) : Nat :=
  if i < 20 then 0x5A827999
  else if i < 40 then 0x6ED9EBA1
  else if i < 60 then 0x8F1BBCDC
  else 0xCA62C1D6

def sha1Round (ws : List Nat) (s : Sha1St) (i : Nat) : Sha1St :=
  let t := w32 (rotl32 5 s.a + sha1F i s.b s.c s.d + s.e + sha1K i + ws.getD i 0)
  ⟨t, s.a, rotl32 30 s.b, s.c, s.d⟩

def sha1Block (st : Sha1St) (block : List Nat) : Sha1St :=
  let ws := sha1Extend block 64
  let f := (List.range 80).foldl (sha1Round ws) st
  ⟨w32 (st.a + f.a), w32 (st.b + f.b), w32 (st.c + f.c),
   w32 (st.d + f.d), w32 (st.e + f.e)⟩

/-- SHA-1 digest (20 bytes) of a byte list. -/
def sha1Bytes (msg : List Nat) : List Nat :=
  let f := (chunk16 (bytesToWords32 (shaPad msg))).foldl sha1Block sha1Init
  word32Bytes f.a ++ word32Bytes f.b ++ word32Bytes f.c ++
    word32Bytes f.d ++ word32Bytes f.e

/-! ## SHA-256 -/

structure Sha256St where
  a : Nat
  b : Nat
  c : Nat
  d : Nat
  e : Nat
  f : Nat
  g : Nat
  h : Nat

def sha256Init : Sha256St :=
  ⟨0x6A09E667, 0xBB67AE85, 0x3C6EF372, 0xA54FF53A,
   0x510E527F, 0x9B05688C, 0x1F83D9AB, 0x5BE0CD19⟩

def sha256K : List Nat :=
  [0x428A2F98, 0x71374491, 0xB5C0FBCF, 0xE9B5DBA5, 0x3956C25B, 0x59F111F1,
   0x923F82A4, 0xAB1C5ED5, 0xD807AA98, 0x12835B01, 0x243185BE, 0x550C7DC3,
   0x72BE5D74, 0x80DEB1FE, 0x9BDC06A7, 0xC19BF174, 0xE49B69C1, 0xEFBE4786,
   0x0FC19DC6, 0x240CA1CC, 0x2DE92C6F, 0x4A7484AA, 0x5CB0A9DC, 0x76F988DA,
   0x983E5152, 0xA831C66D, 0xB00327C8, 0xBF597FC7, 0xC6E00BF3, 0xD5A79147,
   0x06CA6351, 0x14292967, 0x27B70A85, 0x2E1B2138, 0x4D2C6DFC, 0x53380D13,
   0x650A7354, 0x766A0ABB, 0x81C2C92E, 0x92722C85, 0xA2BFE8A1, 0xA81A664B,
   0xC24B8B70, 0xC76C51A3, 0xD192E819, 0xD6990624, 0xF40E3585, 0x106AA070,
   0x19A4C116, 0x1E376C08, 0x2748774C, 0x34B0BCB5, 0x391C0CB3, 0x4ED8AA4A,
   0x5B9CCA4F, 0x682E6FF3, 0x748F82EE, 0x78A5636F, 0x84C87814, 0x8CC70208,
   0x90BEFFFA, 0xA4506CEB, 0xBEF9A3F7, 0xC67178F2]

/-- Extend a 16-word block to the 64-word SHA-256 schedule. -/
def sha256Extend : List Nat → Nat → List Nat
  | ws, 0 => ws
  | ws, n + 1 =>
      let len := ws.length
      let w15 := ws.getD (len - 15) 0
      let w2 := ws.getD (len - 2) 0
      let s0 := rotr32 7 w15 ^^^ rotr32 18 w15 ^^^ (w15 >>> 3)
      let s1 := rotr32 17 w2 ^^^ rotr32 19 w2 ^^^ (w2 >>> 10)
      sha256Extend (ws ++ [w32 (ws.getD (len - 16) 0 + s0 + ws.getD (len - 7) 0 + s1)]) n

def sha256Round (ws : List Nat) (s : Sha256St) (i : Nat) : Sha256St :=
  let bigS1 := rotr32 6 s.e ^^^ rotr32 11 s.e ^^^ rotr32 25 s.e
  let ch := (s.e &&& s.f) ^^^ ((s.e ^^^ 4294967295) &&& s.g)
  let t1 := w32 (s.h + bigS1 + ch + sha256K.getD i 0 + ws.getD i 0)
  let bigS0 := rotr32 2 s.a ^^^ rotr32 13 s.a ^^^ rotr32 22 s.a
  let maj := (s.a &&& s.b) ^^^ (s.a &&& s.c) ^^^ (s.b &&& s.c)
  let t2 := w32 (bigS0 + maj)
  ⟨w32 (t1 + t2), s.a, s.b, s.c, w32 (s.d + t1), s.e, s.f, s.g⟩

def sha256Block (st : Sha256St) (block : List Nat) : Sha256St :=
  let ws := sha256Extend block 48
  let f := (List.range 64).foldl (sha256Round ws) st
  ⟨w32 (st.a + f.a), w32 (st.b + f.b), w32 (st.c + f.c), w32 (st.d + f.d),
   w32 (st.e + f.e), w32 (st.f + f.f), w32 (st.g + f.g), w32 (st.h + f.h)⟩

/-- SHA-256 digest (32 bytes) of a byte list. -/
def sha256Bytes (msg : List Nat) : List Nat :=
  let f := (chunk16 (bytesToWords32 (shaPad msg))).foldl sha256Block sha256Init
  word32Bytes f.a ++ word32Bytes f.b ++ word32Bytes f.c ++ word32Bytes f.d ++
    word32Bytes f.e ++ word32Bytes f.f ++ word32Bytes f.g ++ word32Bytes f.h

/-! ## HMAC (block size 64, as for SHA-1/SHA-256) -/

def hmac (hash : List Nat → List Nat) (key msg : List Nat) : List Nat :=
  let k0 := if key.length > 64 then hash key else key
  let kp := k0 ++ List.replicate (64 - k0.length) 0
  hash ((kp.map (· ^^^ 92)) ++ hash ((kp.map (· ^^^ 54)) ++ msg))

/-! ## Base32 decoding of secrets

Embeds pyotp's `byte_secret`: the secret is padded with `'='` to a multiple
of 8 characters, then decoded with `base64.b32decode(..., casefold=True)`.
Decoding fails on any non-alphabet character, on `'='` other than as a
suffix, and on a padding length outside `{0, 1, 3, 4, 6}`. -/

/-- RFC 4648 Base32 alphabet value of one (already upper-cased) character. -/
def b32Val (c : Char) : Option Nat :=
  let n := c.toNat
  if 65 ≤ n ∧ n ≤ 90 then some (n - 65)
  else if 50 ≤ n ∧ n ≤ 55 then some (n - 50 + 26)
  else none

/-- `base64.b32decode(s, casefold=True)` on an already `'='`-padded string. -/
def b32decodePadded (s : String) : Option (List Nat) :=
  let cs := s.data.map Char.toUpper
  if cs.length % 8 ≠ 0 then none
  else
    let stripped := (cs.reverse.dropWhile (fun c => c = '=')).reverse
    let pad := cs.length - stripped.length
    if pad = 0 ∨ pad = 1 ∨ pad = 3 ∨ pad = 4 ∨ pad = 6 then
      match stripped.mapM b32Val with
      | none => none
      | some vals =>
        let acc := vals.foldl (fun a v => a * 32 + v) 0
        let bits := 5 * vals.length
        some ((List.range (bits / 8)).map (fun i => (acc >>> (bits - 8 * (i + 1))) &&& 255))
    else none

/-- pyotp `byte_secret`: pad the secret to a multiple of 8 with `'='`,
then Base32-decode it. -/
def byteSecret (s : String) : Option (List Nat) :=
  b32decodePadded (s ++ String.mk (List.replicate ((8 - s.length % 8) % 8) '='))

/-- A secret is usable iff `pyotp.TOTP(secret).now()` does not raise,
i.e. iff the secret Base32-decodes. -/
def validSecret (s : String) : Bool := (byteSecret s).isSome

/-! ## TOTP code generation (pyotp `OTP.generate_otp` + `TOTP.now`) -/

/-- pyotp dynamic truncation and decimal formatting: take the low 4 bits of
the last HMAC byte as offset, read 4 bytes big-endian with the top bit
masked, reduce mod `10^digits`, and left-pad with `'0'` to `digits`. -/
def dynamicTruncate (h : List Nat) (digits : Nat) : String :=
  let off := (h.getD (h.length - 1) 0) &&& 15
  let code := ((h.getD off 0 &&& 127) <<< 24) ||| ((h.getD (off + 1) 0) <<< 16) |||
    ((h.getD (off + 2) 0) <<< 8) ||| h.getD (off + 3) 0
  let sc := Nat.repr (code % 10 ^ digits)
  String.mk (List.replicate (digits - sc.length) '0') ++ sc

/-- `pyotp.TOTP(secret, digits=digits, interval=period).now()` at unix time
`t`, with the given HMAC hash (pyotp defaults to SHA-1 when the caller
passes no digest, which is what every call in this repository does).
`none` models the exceptions pyotp raises: the constructor's
`digits > 10 → ValueError`, division by zero for `period = 0`, and
Base32 decode failure. -/
def pyTotpNow (hash : List Nat → List Nat) (secret : String)
    (digits period t : Nat) : Option String :=
  if digits > 10 then none
  else if period = 0 then none
  else
    match byteSecret secret with
    | none => none
    | some key => some (dynamicTruncate (hmac hash key (be64 (t / period))) digits)

/-! ## OTP domain model (`src/core/otp_manager.py`)

`OTPManager.entries` is a Python dict keyed by label; it is embedded as an
association list that keeps insertion order (Python dicts preserve
insertion order; assigning to an existing key keeps its position,
assigning a fresh key appends).  `created_at` timestamps are embedded as
`Nat` seconds. -/

/-- `OTPEntry` dataclass. -/
structure OTPEntry where
  label : String
  secret : String
  issuer : Option String := none
  algorithm : String := "SHA1"
  digits : Nat := 6
  period : Nat := 30
  tags : List String := []
  createdAt : Nat := 0
  deriving DecidableEq, Repr

/-- `d[k]` lookup (`dict.get`), for string-keyed Python dicts. -/
def dictGet {α : Type} (m : List (String × α)) (k : String) : Option α :=
  (m.find? (fun p => p.1 = k)).map (fun p => p.2)

/-- `k in d`. -/
def dictMem {α : Type} (m : List (String × α)) (k : String) : Bool :=
  m.any (fun p => p.1 = k)

/-- `d[k] = v`: replace in place when the key exists, else append
(Python dicts keep the position of an existing key). -/
def dictSet {α : Type} (m : List (String × α)) (k : String) (v : α) :
    List (String × α) :=
  match m with
  | [] => [(k, v)]
  | (k1, v1) :: rest =>
      if k1 = k then (k, v) :: rest else (k1, v1) :: dictSet rest k v

/-- `del d[k]`: drop the (first) binding of `k`. -/
def dictErase {α : Type} (m : List (String × α)) (k : String) :
    List (String × α) :=
  match m with
  | [] => []
  | (k1, v1) :: rest =>
      if k1 = k then rest else (k1, v1) :: dictErase rest k

/-- The manager's `entries` dict. -/
abbrev Manager := List (String × OTPEntry)

/-- The labels of a manager, in insertion order. -/
def labels (m : Manager) : List String := m.map (fun p => p.1)

/-- `OTPManager.add_entry`: fails when the label is already present or when
`pyotp.TOTP(entry.secret).now()` raises; otherwise stores the entry. -/
def addEntry (m : Manager) (e : OTPEntry) : Bool × Manager :=
  if dictMem m e.label then (false, m)
  else if !validSecret e.secret then (false, m)
  else (true, dictSet m e.label e)

/-- `OTPManager.remove_entry`. -/
def removeEntry (m : Manager) (label : String) : Bool × Manager :=
  if dictMem m label then (true, dictErase m label) else (false, m)

/-- `OTPManager.update_entry`: the old label must exist; a changed label
must not collide; the new secret must be usable; then `del` + insert. -/
def updateEntry (m : Manager) (oldLabel : String) (e : OTPEntry) :
    Bool × Manager :=
  if !dictMem m oldLabel then (false, m)
  else if oldLabel ≠ e.label ∧ dictMem m e.label then (false, m)
  else if !validSecret e.secret then (false, m)
  else (true, dictSet (dictErase m oldLabel) e.label e)

/-- `OTPManager.generate_otp` at unix time `t`.  The entry's `algorithm`
field is not consulted: the source constructs
`pyotp.TOTP(entry.secret, digits=entry.digits, interval=entry.period)`
without a `digest` argument, so pyotp's SHA-1 default is always used. -/
def generateOtp (m : Manager) (label : String) (t : Nat) : Option String :=
  match dictGet m label with
  | none => none
  | some e => pyTotpNow sha1Bytes e.secret e.digits e.period t

/-- `OTPManager.get_otp_with_remaining_time` at unix time `t`:
`remaining = period - (int(time.time()) % period)`. -/
def getOtpWithRemainingTime (m : Manager) (label : String) (t : Nat) :
    Option (String × Nat) :=
  match dictGet m label with
  | none => none
  | some e =>
      match pyTotpNow sha1Bytes e.secret e.digits e.period t with
      | none => none
      | some otp => some (otp, e.period - t % e.period)

/-- `OTPManager.get_progress` at unix time `t`:
`(int(time.time()) % period) / period` as a float, embedded exactly in `ℚ`;
`0.0` when the label is unknown.  `none` models the uncaught
`ZeroDivisionError` raised when the entry's period is `0`. -/
def getProgress (m : Manager) (label : String) (t : Nat) : Option ℚ :=
  match dictGet m label with
  | none => some 0
  | some e =>
      if e.period = 0 then none
      else some (((t % e.period : Nat) : ℚ) / (e.period : ℚ))

/-! ## Provisioning URIs (`parse_uri` / `generate_uri` and pyotp)

A provisioning URI is embedded structurally: its label path (as the
percent-decoded string pyotp sees after `unquote`), its query parameters,
and its scheme type.  `urllib`'s `quote`/`unquote` pair is the identity on
the embedded path, so percent-encoding is not modelled separately. -/

structure StoredItem where
  label : Option String := none
  secret : Option String := none
  issuer : Option String := none
  algorithm : Option String := none
  digits : Option Nat := none
  period : Option Nat := none
  tags : Option (List String) := none
  createdAt : Option Nat := none
  deriving DecidableEq, Repr

structure LegacyItem where
  label : Option String := none
  secret : Option String := none
  deriving DecidableEq, Repr

inductive StorageDoc where
  | legacy (items : List LegacyItem)
  | current (items : List StoredItem)
  deriving DecidableEq, Repr

/-- One current-format record as an `OTPEntry` (`now` is the load time
used when `created_at` is missing). -/
def itemToEntry (it : StoredItem) (now : Nat) : OTPEntry :=
  { label := it.label.getD "Unknown"
    secret := it.secret.getD ""
    issuer := it.issuer
    algorithm := it.algorithm.getD "SHA1"
    digits := it.digits.getD 6
    period := it.period.getD 30
    tags := it.tags.getD []
    createdAt := it.createdAt.getD now }

/-- One legacy record as an `OTPEntry` (all other fields defaulted). -/
def legacyToEntry (it : LegacyItem) (now : Nat) : OTPEntry :=
  { label := it.label.getD "Unknown"
    secret := it.secret.getD ""
    createdAt := now }

/-- The entries a document describes, in order. -/
def docEntries (doc : StorageDoc) (now : Nat) : List OTPEntry :=
  match doc with
  | .legacy items => items.map (fun it => legacyToEntry it now)
  | .current items => items.map (fun it => itemToEntry it now)

/-- `StorageManager.load` on a successfully parsed document: fold
`add_entry` over the records into a fresh manager. -/
def loadDoc (doc : StorageDoc) (now : Nat) : Manager :=
  (docEntries doc now).foldl (fun m e => (addEntry m e).2) []

/-! ## Backup retention (`_create_backup` / `_cleanup_old_backups`)

The backups directory is embedded as the list of its file names (all
created by `_create_backup`, hence matching `otp_data_*.json`).  Python's
`sorted` on the globbed paths orders them lexicographically, which for
these names is the lexicographic order of the embedded timestamps. -/

/-- Lexicographic comparison of character lists by code point, as Python
compares strings. -/
def charListLe : List Char → List Char → Bool
  | [], _ => true
  | _ :: _, [] => false
  | a :: as, b :: bs =>
      if a.toNat < b.toNat then true
      else if b.toNat < a.toNat then false
      else charListLe as bs

/-- Python's string `<=`. -/
def strLe (a b : String) : Bool := charListLe a.data b.data

/-- Python's `sorted` on a list of file names, modelled by insertion sort
(on the duplicate-free directories at issue every correct sort returns
the same list). -/
def pySorted (l : List String) : List String :=
  l.insertionSort (fun a b => strLe a b = true)

/-- Backup file name for a `YYYYMMDD_HHMMSS` timestamp. -/
def backupName (ts : String) : String := "otp_data_" ++ ts ++ ".json"

/-- `_cleanup_old_backups` with the default `keep_count = 10`: when more
than 10 backups exist, delete all but the last 10 in sorted order. -/
def cleanupOldBackups (dir : List String) : List String :=
  if (pySorted dir).length > 10 then
    dir.filter (fun f =>
      !(((pySorted dir).take ((pySorted dir).length - 10)).contains f))
  else dir

/-- `_create_backup` during a `save` of an already-existing store: copy
the data file to a fresh timestamped name, then clean up. -/
def createBackup (dir : List String) (ts : String) : List String :=
  cleanupOldBackups (dir ++ [backupName ts])

/-- A run of sequential saves of an existing store, one timestamp each. -/
def saveRun (dir : List String) (tss : List String) : List String :=
  tss.foldl createBackup dir

/-! ## Settings tree and deep merge (`SettingsManager`) -/

/-- A JSON settings value. -/
inductive SJson where
  | null
  | bool (b : Bool)
  | num (n : Int)
  | str (s : String)
  | obj (fields : List (String × SJson))

/-!
`SettingsManager._merge_settings`: start from (a copy of) the default
dict and fold the loaded items over it with `mergeSettingsItem`; when both
sides hold a dict, recurse, otherwise the loaded value replaces the
default.
-/

mutual

/-- One loaded key/value folded onto the result dict. -/
def mergeSettingsItem (d : List (String × SJson)) (k : String) :
    SJson → List (String × SJson)
  | SJson.obj lv =>
      match dictGet d k with
      | some (SJson.obj dv) => dictSet d k (SJson.obj (mergeSettings dv lv))
      | _ => dictSet d k (SJson.obj lv)
  | v => dictSet d k v

/-- The fold over the loaded items. -/
def mergeSettings (d : List (String × SJson)) :
    List (String × SJson) → List (String × SJson)
  | [] => d
  | (k, v) :: rest => mergeSettings (mergeSettingsItem d k v) rest

end

/-- The compiled-in `default_settings` tree (`settings.py`, `__init__`). -/
def defaultSettings : List (String × SJson) :=
  [("language", .str "zh_TW"),
   ("theme", .str "dark"),
   ("window", .obj [("width", .num 450), ("height", .num 700),
                    ("x", .null), ("y", .null)]),
   ("auto_backup", .bool true),
   ("backup_count", .num 10),
   ("show_progress", .bool true),
   ("auto_copy", .bool false),
   ("notifications", .obj [("enabled", .bool true), ("sound", .bool false)]),
   ("security", .obj [("auto_lock", .bool false), ("lock_timeout", .num 300),
                      ("require_password", .bool false)])]

/-- `SettingsManager.load` when a settings file parses to `doc`: merge it
onto the defaults. -/
def loadSettings (doc : List (String × SJson)) : List (String × SJson) :=
  mergeSettings defaultSettings doc

/-- Python `key.split(".")` (always at least one part; `""` splits to
`[""]`). -/
def splitDotsAux : List Char → List Char → List String
  | [], acc => [String.mk acc.reverse]
  | c :: cs, acc =>
      if c = '.' then String.mk acc.reverse :: splitDotsAux cs []
      else splitDotsAux cs (c :: acc)

def splitDots (s : String) : List String := splitDotsAux s.data []

/-- `SettingsManager.get` dot-path walk over a settings tree. -/
def getWalk : SJson → List String → Option SJson
  | v, [] => some v
  | .obj fields, k :: rest =>
      match dictGet fields k with
      | some v => getWalk v rest
      | none => none
  | _, _ :: _ => none

/-- `get(key)` with the default `None`, over a pure settings tree. -/
def settingsGet (tree : List (String × SJson)) (key : String) : Option SJson :=
  getWalk (.obj tree) (splitDots key)

/-! ## Settings manager with reference semantics

`SettingsManager` mutates nested dicts in place and copies dicts
shallowly (`default_settings.copy()`), so Python object identity matters.
The embedding uses an explicit heap: a dict is a list of key/value pairs
whose nested-dict values are heap addresses, and the manager state holds
the heap together with the addresses of `default_settings` and
`_settings`. -/

/-- A value stored in a settings dict: a scalar leaf or a reference to a
nested dict on the heap. -/
inductive HVal where
  | leaf (v : SJson)
  | ref (addr : Nat)

abbrev SettingsDict := List (String × HVal)

abbrev Heap := List SettingsDict

def heapGet (h : Heap) (a : Nat) : SettingsDict := h.getD a []

def heapSet (h : Heap) (a : Nat) (d : SettingsDict) : Heap := h.set a d

/-- The manager state: the heap plus the addresses of `default_settings`
and `_settings`. -/
structure SettingsState where
  heap : Heap
  defaultAddr : Nat
  settingsAddr : Nat

/-- The heap after `SettingsManager.__init__` has built
`default_settings`: addresses 0–2 hold the nested `window`,
`notifications` and `security` dicts, address 3 the top-level dict. -/
def initialHeap : Heap :=
  [[("width", .leaf (.num 450)), ("height", .leaf (.num 700)),
    ("x", .leaf .null), ("y", .leaf .null)],
   [("enabled", .leaf (.bool true)), ("sound", .leaf (.bool false))],
   [("auto_lock", .leaf (.bool false)), ("lock_timeout", .leaf (.num 300)),
    ("require_password", .leaf (.bool false))],
   [("language", .leaf (.str "zh_TW")), ("theme", .leaf (.str "dark")),
    ("window", .ref 0), ("auto_backup", .leaf (.bool true)),
    ("backup_count", .leaf (.num 10)), ("show_progress", .leaf (.bool true)),
    ("auto_copy", .leaf (.bool false)), ("notifications", .ref 1),
    ("security", .ref 2)]]

/-- `dict.copy()`: allocate a fresh dict with the same entries — nested
dict references are shared, not copied. -/
def copyDict (s : SettingsState) (a : Nat) : SettingsState × Nat :=
  (⟨s.heap ++ [heapGet s.heap a], s.defaultAddr, s.settingsAddr⟩, s.heap.length)

/-- `SettingsManager` state after `__init__` + `load()` with no settings
file on disk: `_settings = default_settings.copy()`. -/
def settingsInitNoFile : SettingsState :=
  let base : SettingsState := ⟨initialHeap, 3, 3⟩
  let (s1, a) := copyDict base 3
  ⟨s1.heap, 3, a⟩

/-- The navigation loop of `SettingsManager.set` over `keys[:-1]`,
followed by the final in-place assignment `current[keys[-1]] = value`.
An empty key list models the `IndexError` branch (caught, returns
`False`); a non-dict intermediate returns `False`. -/
def setWalk (s : SettingsState) (addr : Nat) (v : SJson) :
    List String → SettingsState × Bool
  | [] => (s, false)
  | [k] =>
      (⟨heapSet s.heap addr (dictSet (heapGet s.heap addr) k (.leaf v)),
        s.defaultAddr, s.settingsAddr⟩, true)
  | k :: k2 :: rest =>
      match dictGet (heapGet s.heap addr) k with
      | none =>
          let fresh := s.heap.length
          let h1 := heapSet s.heap addr (dictSet (heapGet s.heap addr) k (.ref fresh))
          setWalk ⟨h1 ++ [[]], s.defaultAddr, s.settingsAddr⟩ fresh v (k2 :: rest)
      | some (.leaf _) => (s, false)
      | some (.ref a2) => setWalk s a2 v (k2 :: rest)

/-- `SettingsManager.set(key, value)` (persistence side effects are
outside the model; `save()` reports success). -/
def settingsSet (s : SettingsState) (key : String) (v : SJson) :
    SettingsState × Bool :=
  setWalk s s.settingsAddr v (splitDots key)

/-- `SettingsManager.reset_to_defaults()`:
`_settings = self.default_settings.copy()`. -/
def resetToDefaults (s : SettingsState) : SettingsState :=
  let (s1, a) := copyDict s s.defaultAddr
  ⟨s1.heap, s1.defaultAddr, a⟩

/-- The walk of `SettingsManager.get` over a heap dict. -/
def getHWalk (s : SettingsState) (addr : Nat) : List String → Option HVal
  | [] => some (.ref addr)
  | k :: rest =>
      match dictGet (heapGet s.heap addr) k with
      | none => none
      | some (.leaf v) => if rest.isEmpty then some (.leaf v) else none
      | some (.ref a2) => getHWalk s a2 rest

/-- `SettingsManager.get(key)` with the default `None` (`none`). -/
def settingsHGet (s : SettingsState) (key : String) : Option HVal :=
  getHWalk s s.settingsAddr (splitDots key)

/-! ## Import collision resolution (`ExportImportManager`)

Both QR-image import and Google-Authenticator-format import run the same
loop on each parsed entry: when its label already exists, try
`"{label} (1)"`, `"{label} (2)"`, … until a free one is found, then
`add_entry`. -/

/-- `f"{base_label} ({counter})"`. -/
def candidateLabel (base : String) (c : Nat) : String :=
  base ++ " (" ++ Nat.repr c ++ ")"

/-- The `while` loop `counter += 1`, run with explicit fuel (the loop
always terminates within `|entries| + 1` trials because the candidate
labels are pairwise distinct). -/
def findCounterAux (keys : List String) (base : String) :
    Nat → Nat → Nat
  | 0, c => c
  | fuel + 1, c =>
      if keys.contains (candidateLabel base c) then
        findCounterAux keys base fuel (c + 1)
      else c

/-- The label an imported entry is stored under. -/
def resolveImportLabel (m : Manager) (base : String) : String :=
  candidateLabel base (findCounterAux (labels m) base ((labels m).length + 1) 1)

/-- One iteration of the import loop on an already-parsed entry:
rename on collision, then `add_entry`; the label is recorded only when
the add succeeded. -/
def importParsedEntry (m : Manager) (e : OTPEntry) : Manager × Option String :=
  let e1 := if dictMem m e.label then { e with label := resolveImportLabel m e.label } else e
  match addEntry m e1 with
  | (true, m1) => (m1, some e1.label)
  | (false, _) => (m, none)

/-- The import loop over a list of parsed entries, returning the manager
and the labels actually added, in arrival order. -/
def importParsed (m : Manager) (es : List OTPEntry) : Manager × List String :=
  es.foldl
    (fun acc e =>
      match importParsedEntry acc.1 e with
      | (m1, some l) => (m1, acc.2 ++ [l])
      | (m1, none) => (m1, acc.2))
    (m, [])

/-! ## Reachable collections

The collections the application can hold: the fresh empty dict, or the
result of the manager's mutating operations.  (Loading and importing also
build their result through `add_entry`.) -/

inductive Reachable : Manager → Prop where
  | empty : Reachable []
  | add (m : Manager) (e : OTPEntry) : Reachable m → Reachable (addEntry m e).2
  | remove (m : Manager) (l : String) : Reachable m → Reachable (removeEntry m l).2
  | update (m : Manager) (l : String) (e : OTPEntry) :
      Reachable m → Reachable (updateEntry m l e).2

/-! ## Concrete fixtures used by the claim theorems -/

/-- An entry whose stored algorithm is SHA-256. -/
def entrySha256 : OTPEntry :=
  { label := "Work", secret := "JBSWY3DPEHPK3PXP", algorithm := "SHA256" }

def mgrSha256 : Manager := [("Work", entrySha256)]

/-- A plain default entry. -/
def entryExample : OTPEntry :=
  { label := "Example", secret := "JBSWY3DPEHPK3PXP" }

def mgrExample : Manager := [("Example", entryExample)]

/-- Two parsed payloads that both resolve to label `"Work"`. -/
def workFirst : OTPEntry := { label := "Work", secret := "JBSWY3DPEHPK3PXP" }

def workSecond : OTPEntry :=
  { label := "Work", secret := "JBSWY3DPEHPK3PXP", issuer := some "B" }

/-- Twelve distinct backup timestamps. -/
def twelveTimestamps : List String :=
  ["20250101_000001", "20250101_000002", "20250101_000003",
   "20250101_000004", "20250101_000005", "20250101_000006",
   "20250101_000007", "20250101_000008", "20250101_000009",
   "20250101_000010", "20250101_000011", "20250101_000012"]

/-- The settings document `{"window": {"width": 500}}`. -/
def widthOnlyDoc : List (String × SJson) :=
  [("window", .obj [("width", .num 500)])]

/-- The default tree with only `window.width` changed to 500. -/
def defaultsWithWidth500 : List (String × SJson) :=
  [("language", .str "zh_TW"),
   ("theme", .str "dark"),
   ("window", .obj [("width", .num 500), ("height", .num 700),
                    ("x", .null), ("y", .null)]),
   ("auto_backup", .bool true),
   ("backup_count", .num 10),
   ("show_progress", .bool true),
   ("auto_copy", .bool false),
   ("notifications", .obj [("enabled", .bool true), ("sound", .bool false)]),
   ("security", .obj [("auto_lock", .bool false), ("lock_timeout", .num 300),
                      ("require_password", .bool false)])]

/-- The settings-manager run behind claim C8: fresh manager with no
settings file, `set("window.width", 999)`, then `reset_to_defaults()`. -/
def c8Run : SettingsState :=
  resetToDefaults (settingsSet settingsInitNoFile "window.width" (.num 999)).1

/-- Decimal value of a digit string (left fold), used to invert
`Nat.repr`. -/
def reprVal (cs : List Char) : Nat :=
  cs.foldl (fun a c => a * 10 + (c.toNat - 48)) 0

theorem dictMem_iff_mem_keys {α : Type} (m : List (String × α)) (k : String) :
    dictMem m k = true ↔ k ∈ m.map Prod.fst := by
  induction m with
  | nil => simp [dictMem]
  | cons p rest ih =>
      simp only [dictMem, List.any_cons, List.map_cons, List.mem_cons,
        Bool.or_eq_true, decide_eq_true_eq] at ih ⊢
      rw [ih, eq_comm]

theorem dictGet_eq_none_iff {α : Type} (m : List (String × α)) (k : String) :
    dictGet m k = none ↔ dictMem m k = false := by
  induction m with
  | nil => simp [dictGet, dictMem]
  | cons p rest ih =>
      by_cases h : p.1 = k
      · simp [dictGet, dictMem, List.find?_cons, List.any_cons, h]
      · simp only [dictGet, dictMem] at ih ⊢
        simp [List.find?_cons, List.any_cons, h, ih]

theorem dictGet_isSome_of_dictMem {α : Type} (m : List (String × α)) (k : String)
    (h : dictMem m k = true) : ∃ v, dictGet m k = some v := by
  cases hg : dictGet m k with
  | some v => exact ⟨v, rfl⟩
  | none =>
      rw [dictGet_eq_none_iff] at hg
      rw [h] at hg
      cases hg

theorem dictGet_dictSet_same {α : Type} (m : List (String × α)) (k : String) (v : α) :
    dictGet (dictSet m k v) k = some v := by
  induction m with
  | nil => simp [dictGet, dictSet, List.find?_cons]
  | cons p rest ih =>
      by_cases h : p.1 = k
      · simp [dictSet, h, dictGet, List.find?_cons]
      · simp only [dictSet, h, if_false]
        simp only [dictGet, List.find?_cons, h, decide_eq_true_eq, if_false] at ih ⊢
        simpa [h] using ih

theorem dictGet_dictSet_ne {α : Type} (m : List (String × α)) (k k1 : String) (v : α)
    (h : k1 ≠ k) : dictGet (dictSet m k v) k1 = dictGet m k1 := by
  induction m with
  | nil => simp [dictGet, dictSet, List.find?_cons, Ne.symm h]
  | cons p rest ih =>
      by_cases hp : p.1 = k
      · subst hp
        simp [dictSet, dictGet, List.find?_cons, Ne.symm h]
      · simp only [dictSet, hp, if_false]
        by_cases hq : p.1 = k1
        · simp [dictGet, List.find?_cons, hq]
        · simp only [dictGet, List.find?_cons, hq, decide_eq_true_eq, if_false] at ih ⊢
          simpa [hq] using ih

theorem dictSet_eq_append {α : Type} (m : List (String × α)) (k : String) (v : α)
    (h : dictMem m k = false) : dictSet m k v = m ++ [(k, v)] := by
  induction m with
  | nil => simp [dictSet]
  | cons p rest ih =>
      simp only [dictMem, List.any_cons, Bool.or_eq_false_iff,
        decide_eq_false_iff_not] at h
      simp only [dictMem] at ih
      simp [dictSet, h.1, ih h.2]

theorem keys_dictErase {α : Type} (m : List (String × α)) (k : String) :
    (dictErase m k).map Prod.fst = (m.map Prod.fst).erase k := by
  induction m with
  | nil => simp [dictErase]
  | cons p rest ih =>
      by_cases h : p.1 = k
      · simp [dictErase, h, List.erase_cons]
      · simp [dictErase, h, List.erase_cons, ih]

theorem labels_eq_map_fst (m : Manager) : labels m = m.map Prod.fst := rfl

theorem addEntry_of_dup (m : Manager) (e : OTPEntry)
    (h : dictMem m e.label = true) : addEntry m e = (false, m) := by
  simp [addEntry, h]

theorem addEntry_of_invalid (m : Manager) (e : OTPEntry)
    (h : validSecret e.secret = false) : addEntry m e = (false, m) := by
  by_cases h1 : dictMem m e.label
  · simp [addEntry, h1]
  · simp [addEntry, h1, h]

theorem addEntry_ok (m : Manager) (e : OTPEntry)
    (h1 : dictMem m e.label = false) (h2 : validSecret e.secret = true) :
    addEntry m e = (true, m ++ [(e.label, e)]) := by
  simp [addEntry, h1, h2, dictSet_eq_append m e.label e h1]

theorem nodup_labels_addEntry (m : Manager) (e : OTPEntry)
    (h : (labels m).Nodup) : (labels (addEntry m e).2).Nodup := by
  by_cases h1 : dictMem m e.label
  · rw [addEntry_of_dup m e h1]
    exact h
  · by_cases h2 : validSecret e.secret
    · rw [addEntry_ok m e (by simpa using h1) h2]
      rw [labels_eq_map_fst] at h ⊢
      rw [List.map_append]
      simp only [List.map_cons, List.map_nil]
      rw [List.nodup_append]
      refine ⟨h, List.nodup_singleton _, ?_⟩
      intro a ha hb
      simp only [List.mem_singleton] at hb
      subst hb
      have h1f : ¬(dictMem m e.label = true) := h1
      exact h1f ((dictMem_iff_mem_keys m e.label).mpr ha)
    · rw [addEntry_of_invalid m e (by simpa using h2)]
      exact h

theorem nodup_labels_removeEntry (m : Manager) (l : String)
    (h : (labels m).Nodup) : (labels (removeEntry m l).2).Nodup := by
  by_cases h1 : dictMem m l
  · simp only [removeEntry, h1, if_true]
    rw [labels_eq_map_fst, keys_dictErase]
    exact h.erase l
  · simp only [removeEntry, h1, Bool.false_eq_true, if_false]
    exact h

theorem dictMem_dictErase_false (m : Manager) (old newLabel : String)
    (hn : (labels m).Nodup)
    (h : old = newLabel ∨ dictMem m newLabel = false) :
    dictMem (dictErase m old) newLabel = false := by
  rw [← Bool.not_eq_true, dictMem_iff_mem_keys, keys_dictErase]
  rcases h with h | h
  · subst h
    exact hn.not_mem_erase
  · intro hmem
    have hmm : newLabel ∈ m.map Prod.fst := List.mem_of_mem_erase hmem
    have hne : dictMem m newLabel = true := (dictMem_iff_mem_keys m newLabel).mpr hmm
    rw [h] at hne
    cases hne

theorem updateEntry_ok (m : Manager) (old : String) (e : OTPEntry)
    (hn : (labels m).Nodup)
    (h1 : dictMem m old = true)
    (h2 : old = e.label ∨ dictMem m e.label = false)
    (h3 : validSecret e.secret = true) :
    updateEntry m old e = (true, dictErase m old ++ [(e.label, e)]) := by
  have hfree : dictMem (dictErase m old) e.label = false :=
    dictMem_dictErase_false m old e.label hn h2
  have hcond : ¬(old ≠ e.label ∧ dictMem m e.label = true) := by
    rcases h2 with h | h
    · intro hc
      exact hc.1 h
    · intro hc
      rw [h] at hc
      cases hc.2
  simp [updateEntry, h1, hcond, h3, dictSet_eq_append _ _ _ hfree]

theorem nodup_labels_updateEntry (m : Manager) (old : String) (e : OTPEntry)
    (h : (labels m).Nodup) : (labels (updateEntry m old e).2).Nodup := by
  by_cases h1 : dictMem m old
  · by_cases h2 : old ≠ e.label ∧ dictMem m e.label = true
    · simp [updateEntry, h1, h2, h]
    · by_cases h3 : validSecret e.secret
      · have h2s : old = e.label ∨ dictMem m e.label = false := by
          by_cases he : old = e.label
          · exact Or.inl he
          · refine Or.inr ?_
            by_cases hm : dictMem m e.label
            · exact absurd ⟨he, hm⟩ h2
            · simpa using hm
        rw [updateEntry_ok m old e h h1 h2s h3]
        rw [labels_eq_map_fst] at h ⊢
        rw [List.map_append, keys_dictErase]
        simp only [List.map_cons, List.map_nil]
        rw [List.nodup_append]
        refine ⟨h.erase old, List.nodup_singleton _, ?_⟩
        intro a ha hb
        simp only [List.mem_singleton] at hb
        subst hb
        have hfree := dictMem_dictErase_false m old e.label h h2s
        rw [← Bool.not_eq_true, dictMem_iff_mem_keys, keys_dictErase] at hfree
        exact hfree ha
      · simp [updateEntry, h1, h2, h3, h]
  · simp [updateEntry, h1, h]

theorem nodup_labels_of_reachable (m : Manager) (h : Reachable m) :
    (labels m).Nodup := by
  induction h with
  | empty => simp [labels]
  | add m e _ ih => exact nodup_labels_addEntry m e ih
  | remove m l _ ih => exact nodup_labels_removeEntry m l ih
  | update m l e _ ih => exact nodup_labels_updateEntry m l e ih

/-- C3: adding an entry whose label is already present always fails and
returns the collection unchanged (same size and contents), and every
reachable collection has pairwise-distinct labels. -/
theorem c3_duplicate_add_rejected :
    (∀ (m : Manager) (e : OTPEntry), dictMem m e.label = true →
      addEntry m e = (false, m)) ∧
    (∀ m : Manager, Reachable m → (labels m).Nodup) :=
  ⟨addEntry_of_dup, nodup_labels_of_reachable⟩

/-- Witness for C3 at a concrete duplicate add. -/
theorem c3_duplicate_add_rejected_witness :
    addEntry mgrExample entryExample = (false, mgrExample) ∧
    (labels ((addEntry [] entryExample).2)).Nodup :=
  ⟨c3_duplicate_add_rejected.1 mgrExample entryExample (by decide),
   c3_duplicate_add_rejected.2 _ (Reachable.add [] entryExample Reachable.empty)⟩

/-- C4: `update_entry` fails (returning the collection unchanged) exactly
when the old label is absent, the new label collides with a different
entry, or the new secret is unusable; on success the old entry is removed
and the new entry inserted under its own label. -/
theorem c4_update_semantics (m : Manager) (old : String) (e : OTPEntry)
    (hn : (labels m).Nodup) :
    (updateEntry m old e = (false, m) ↔
      (dictMem m old = false ∨
        (old ≠ e.label ∧ dictMem m e.label = true) ∨
        validSecret e.secret = false)) ∧
    (dictMem m old = true → (old = e.label ∨ dictMem m e.label = false) →
      validSecret e.secret = true →
      updateEntry m old e = (true, dictErase m old ++ [(e.label, e)])) := by
  constructor
  · by_cases h1 : dictMem m old
    · by_cases h2 : old ≠ e.label ∧ dictMem m e.label = true
      · simp [updateEntry, h1, h2]
      · by_cases h3 : validSecret e.secret
        · have h2s : old = e.label ∨ dictMem m e.label = false := by
            by_cases he : old = e.label
            · exact Or.inl he
            · refine Or.inr ?_
              by_cases hm : dictMem m e.label
              · exact absurd ⟨he, hm⟩ h2
              · simpa using hm
          rw [updateEntry_ok m old e hn h1 h2s h3]
          simp only [Prod.mk.injEq]
          constructor
          · intro hc
            cases hc.1
          · intro hc
            rcases hc with hc | hc | hc
            · rw [h1] at hc
              cases hc
            · exact absurd hc h2
            · rw [h3] at hc
              cases hc
        · simp only [updateEntry, h1, if_true]
          have h3f : validSecret e.secret = false := by simpa using h3
          simp [h2, h3f]
    · simp [updateEntry, h1]
  · intro h1 h2 h3
    exact updateEntry_ok m old e hn h1 h2 h3

/-- Witness for C4 at concrete inputs (one failing, one succeeding). -/
theorem c4_update_semantics_witness :
    (updateEntry mgrExample "missing" entryExample = (false, mgrExample)) ∧
    (updateEntry mgrExample "Example" workFirst =
      (true, [("Work", workFirst)])) := by
  constructor
  · exact (c4_update_semantics mgrExample "missing" entryExample
      (by decide)).1.mpr (Or.inl (by decide))
  · have h := (c4_update_semantics mgrExample "Example" workFirst
      (by decide)).2 (by decide) (Or.inr (by decide)) (by decide)
    simpa using h

/-! ## C5: progress and remaining time -/

/-- C5: for a stored entry with positive period, `get_progress` returns
`(floor(t) mod period) / period`, a value in `[0, 1)`;
`get_otp_with_remaining_time` returns `period - (floor(t) mod period)` as
the remaining seconds for entries whose code generation succeeds (usable
secret and at most 10 digits); an unknown label yields progress `0.0`. -/
theorem c5_progress_and_remaining :
    (∀ (m : Manager) (lbl : String) (e : OTPEntry) (t : Nat),
      dictGet m lbl = some e → 0 < e.period →
      getProgress m lbl t = some ((t % e.period : Nat) / (e.period : ℚ)) ∧
      (0 : ℚ) ≤ ((t % e.period : Nat) : ℚ) / (e.period : ℚ) ∧
      ((t % e.period : Nat) : ℚ) / (e.period : ℚ) < 1) ∧
    (∀ (m : Manager) (lbl : String) (e : OTPEntry) (t : Nat),
      dictGet m lbl = some e → 0 < e.period → e.digits ≤ 10 →
      validSecret e.secret = true →
      ∃ code, getOtpWithRemainingTime m lbl t =
        some (code, e.period - t % e.period)) ∧
    (∀ (m : Manager) (lbl : String) (t : Nat),
      dictGet m lbl = none → getProgress m lbl t = some 0) := by
  refine ⟨?_, ?_, ?_⟩
  · intro m lbl e t he hp
    have hne : e.period ≠ 0 := Nat.pos_iff_ne_zero.mp hp
    refine ⟨by simp [getProgress, he, hne], ?_, ?_⟩
    · positivity
    · rw [div_lt_one (by exact_mod_cast hp)]
      exact_mod_cast Nat.mod_lt t hp
  · intro m lbl e t he hp hdig hv
    have hne : e.period ≠ 0 := Nat.pos_iff_ne_zero.mp hp
    have hd10 : ¬ e.digits > 10 := by omega
    rw [validSecret, Option.isSome_iff_exists] at hv
    obtain ⟨key, hkey⟩ := hv
    refine ⟨dynamicTruncate (hmac sha1Bytes key (be64 (t / e.period))) e.digits, ?_⟩
    simp [getOtpWithRemainingTime, he, pyTotpNow, hne, hkey, hd10]
  · intro m lbl t he
    simp [getProgress, he]

/-- Witness for C5: with period 30, at `t mod 30 = 15` progress is `0.5`
and the remaining time is `15`; at `t mod 30 = 0` progress is `0.0` and
the remaining time is `30`; an unknown label yields progress `0.0`. -/
theorem c5_progress_and_remaining_witness :
    getProgress mgrExample "Example" 15 = some (1 / 2 : ℚ) ∧
    (∃ code, getOtpWithRemainingTime mgrExample "Example" 15 = some (code, 15)) ∧
    getProgress mgrExample "Example" 30 = some 0 ∧
    (∃ code, getOtpWithRemainingTime mgrExample "Example" 30 = some (code, 30)) ∧
    getProgress mgrExample "missing" 7 = some 0 := by
  refine ⟨?_, ?_, ?_, ?_, ?_⟩
  · rw [(c5_progress_and_remaining.1 mgrExample "Example" entryExample 15
      rfl (by decide)).1]
    norm_num [entryExample]
  · obtain ⟨code, hc⟩ := c5_progress_and_remaining.2.1 mgrExample "Example"
      entryExample 15 rfl (by decide) (by decide) (by decide)
    exact ⟨code, hc⟩
  · rw [(c5_progress_and_remaining.1 mgrExample "Example" entryExample 30
      rfl (by decide)).1]
    norm_num [entryExample]
  · obtain ⟨code, hc⟩ := c5_progress_and_remaining.2.1 mgrExample "Example"
      entryExample 30 rfl (by decide) (by decide) (by decide)
    exact ⟨code, hc⟩
  · exact c5_progress_and_remaining.2.2 mgrExample "missing" 7 rfl

/-! ## C10: loading drops invalid or duplicate records -/

theorem dictGet_append_left (m m2 : Manager) (L : String) (v : OTPEntry)
    (h : dictGet m L = some v) : dictGet (m ++ m2) L = some v := by
  simp only [dictGet] at h ⊢
  rw [List.find?_append]
  cases hf : m.find? (fun p => p.1 = L) with
  | none => rw [hf] at h; cases h
  | some p => rw [hf] at h; simp [Option.orElse, h, hf]

theorem dictGet_foldl_addEntry_of_some (es : List OTPEntry) (m : Manager)
    (L : String) (v : OTPEntry) (h : dictGet m L = some v) :
    dictGet (es.foldl (fun acc e => (addEntry acc e).2) m) L = some v := by
  induction es generalizing m with
  | nil => simpa using h
  | cons e rest ih =>
      simp only [List.foldl_cons]
      refine ih (addEntry m e).2 ?_
      by_cases h1 : dictMem m e.label
      · rw [addEntry_of_dup m e h1]; exact h
      · by_cases h2 : validSecret e.secret
        · rw [addEntry_ok m e (by simpa using h1) h2]
          exact dictGet_append_left m _ L v h
        · rw [addEntry_of_invalid m e (by simpa using h2)]; exact h

theorem dictGet_foldl_addEntry_of_none (es : List OTPEntry) (m : Manager)
    (L : String) (h : dictGet m L = none) :
    dictGet (es.foldl (fun acc e => (addEntry acc e).2) m) L =
      ((es.find? (fun e => e.label == L && validSecret e.secret)).map id) := by
  induction es generalizing m with
  | nil => simpa using h
  | cons e rest ih =>
      simp only [List.foldl_cons, List.find?_cons]
      have hLmem : dictMem m L = false := (dictGet_eq_none_iff m L).mp h
      by_cases hl : e.label = L
      · by_cases hv : validSecret e.secret
        · have hmem : dictMem m e.label = false := by rw [hl]; exact hLmem
          rw [addEntry_ok m e hmem hv]
          have hfound : dictGet (m ++ [(e.label, e)]) L = some e := by
            simp only [dictGet, List.find?_append]
            have h1 : m.find? (fun p => p.1 = L) = none := by
              simp only [dictGet] at h
              cases hf : m.find? (fun p => p.1 = L) with
              | none => rfl
              | some p => rw [hf] at h; cases h
            simp [Option.orElse, h1, List.find?_cons, hl]
          rw [dictGet_foldl_addEntry_of_some rest _ L e hfound]
          simp [hl, hv]
        · have hvf : validSecret e.secret = false := by simpa using hv
          rw [addEntry_of_invalid m e hvf]
          rw [ih m h]
          simp [hvf]
      · have hpred : (e.label == L && validSecret e.secret) = false := by
          simp [hl]
        rw [hpred]
        by_cases h1 : dictMem m e.label
        · rw [addEntry_of_dup m e h1]
          exact ih m h
        · by_cases h2 : validSecret e.secret
          · rw [addEntry_ok m e (by simpa using h1) h2]
            refine ih _ ?_
            simp only [dictGet, List.find?_append]
            have hmf : m.find? (fun p => p.1 = L) = none := by
              simp only [dictGet] at h
              cases hf : m.find? (fun p => p.1 = L) with
              | none => rfl
              | some p => rw [hf] at h; cases h
            simp [Option.orElse, hmf, List.find?_cons, hl]
          · rw [addEntry_of_invalid m e (by simpa using h2)]
            exact ih m h

/-- C10: loading a persisted document (current or legacy shape) silently
drops every record whose secret is unusable and every record whose label
was already taken by an earlier accepted record: the loaded collection
maps each label to the first record carrying it with a usable secret, and
loading always returns a collection. -/
theorem c10_load_drops_invalid_records (doc : StorageDoc) (now : Nat)
    (L : String) :
    dictGet (loadDoc doc now) L =
      (docEntries doc now).find? (fun e => e.label == L && validSecret e.secret) := by
  unfold loadDoc
  rw [dictGet_foldl_addEntry_of_none (docEntries doc now) [] L rfl]
  simp

/-! ## C6: backup retention -/

theorem charListLe_total (a b : List Char) :
    charListLe a b = true ∨ charListLe b a = true := by
  induction a generalizing b with
  | nil => left; simp [charListLe]
  | cons x xs ih =>
      cases b with
      | nil => right; simp [charListLe]
      | cons y ys =>
          by_cases h1 : x.toNat < y.toNat
          · left; simp [charListLe, h1]
          · by_cases h2 : y.toNat < x.toNat
            · right; simp [charListLe, h1, h2]
            · rcases ih ys with h | h
              · left; simp [charListLe, h1, h2, h]
              · right; simp [charListLe, h1, h2, h]

theorem charListLe_trans (a b c : List Char) (hab : charListLe a b = true)
    (hbc : charListLe b c = true) : charListLe a c = true := by
  induction a generalizing b c with
  | nil => simp [charListLe]
  | cons x xs ih =>
      cases b with
      | nil => simp [charListLe] at hab
      | cons y ys =>
          cases c with
          | nil => simp [charListLe] at hbc
          | cons z zs =>
              simp only [charListLe] at hab hbc ⊢
              by_cases h1 : x.toNat < y.toNat
              · by_cases h2 : y.toNat < z.toNat
                · simp [show x.toNat < z.toNat from Nat.lt_trans h1 h2]
                · by_cases h3 : z.toNat < y.toNat
                  · simp [h2, h3] at hbc
                  · have : y.toNat = z.toNat := Nat.le_antisymm
                      (Nat.not_lt.mp h3) (Nat.not_lt.mp h2)
                    simp [show x.toNat < z.toNat from this ▸ h1]
              · by_cases h1b : y.toNat < x.toNat
                · simp [h1, h1b] at hab
                · have hxy : x.toNat = y.toNat := Nat.le_antisymm
                    (Nat.not_lt.mp h1b) (Nat.not_lt.mp h1)
                  simp only [h1, h1b, if_false] at hab
                  by_cases h2 : y.toNat < z.toNat
                  · simp [hxy ▸ h2]
                  · by_cases h3 : z.toNat < y.toNat
                    · simp [h2, h3] at hbc
                    · have hyz : y.toNat = z.toNat := Nat.le_antisymm
                        (Nat.not_lt.mp h3) (Nat.not_lt.mp h2)
                      simp only [h2, h3, if_false] at hbc
                      have hxz : ¬ x.toNat < z.toNat := by omega
                      have hzx : ¬ z.toNat < x.toNat := by omega
                      simp [hxz, hzx, ih ys zs hab hbc]

theorem strLe_total (a b : String) : strLe a b = true ∨ strLe b a = true :=
  charListLe_total a.data b.data

theorem strLe_trans (a b c : String) (hab : strLe a b = true)
    (hbc : strLe b c = true) : strLe a c = true :=
  charListLe_trans a.data b.data c.data hab hbc

theorem pySorted_perm (l : List String) : List.Perm (pySorted l) l :=
  List.perm_insertionSort _ l

theorem pySorted_sorted (l : List String) :
    (pySorted l).Pairwise (fun a b => strLe a b = true) := by
  haveI : IsTotal String (fun a b => strLe a b = true) := ⟨strLe_total⟩
  haveI : IsTrans String (fun a b => strLe a b = true) := ⟨strLe_trans⟩
  exact List.sorted_insertionSort _ l

/-- The 10 backups with the lexicographically greatest names. -/
theorem cleanupOldBackups_spec (dir : List String) (hn : dir.Nodup) :
    List.Perm (cleanupOldBackups dir)
      ((pySorted dir).drop ((pySorted dir).length - 10)) := by
  have hperm : List.Perm dir (pySorted dir) := (pySorted_perm dir).symm
  have hnod : (pySorted dir).Nodup := hperm.nodup hn
  by_cases hlen : (pySorted dir).length > 10
  · have hcl : cleanupOldBackups dir = dir.filter (fun f =>
        !(((pySorted dir).take ((pySorted dir).length - 10)).contains f)) := by
      simp only [cleanupOldBackups]
      rw [if_pos hlen]
    rw [hcl]
    set p : String → Bool := fun f =>
      !(((pySorted dir).take ((pySorted dir).length - 10)).contains f) with hp
    set doomed := (pySorted dir).take ((pySorted dir).length - 10) with hdo
    set kept := (pySorted dir).drop ((pySorted dir).length - 10) with hke
    have hsplit : doomed ++ kept = pySorted dir := List.take_append_drop _ _
    have hdisj : doomed.Disjoint kept := by
      have hx := hsplit.symm ▸ hnod
      exact (List.nodup_append.mp hx).2.2
    have hdoomedfil : doomed.filter p = [] := by
      rw [List.filter_eq_nil_iff]
      intro a ha
      have hac : doomed.contains a = true := List.elem_iff.mpr ha
      simp [hp, ← hdo, hac]
      exact ha
    have hkeptfil : kept.filter p = kept := by
      rw [List.filter_eq_self]
      intro a ha
      have hnotd : a ∉ doomed := fun had => hdisj had ha
      have hac : doomed.contains a = false := by
        rw [← Bool.not_eq_true]
        intro hc
        exact hnotd (List.elem_iff.mp hc)
      simp [hp, ← hdo, hac]
      exact hnotd
    have hsfil : (pySorted dir).filter p = kept := by
      rw [← hsplit, List.filter_append, hdoomedfil, hkeptfil, List.nil_append]
    rw [← hsfil]
    exact hperm.filter p
  · have hcl : cleanupOldBackups dir = dir := by
      simp only [cleanupOldBackups]
      rw [if_neg hlen]
    have hz : (pySorted dir).length - 10 = 0 := by omega
    rw [hcl, hz, List.drop_zero]
    exact hperm

/-- C6: every save of an existing store leaves at most 10 backups, the
kept files are the 10 lexicographically greatest names (every deleted
name compares below every kept name), and 12 sequential saves with
distinct timestamps leave exactly the 10 most recent backups. -/
theorem c6_backup_retention :
    (∀ (dir : List String) (ts : String),
      (dir ++ [backupName ts]).Nodup →
      (createBackup dir ts).length ≤ 10 ∧
      (∀ f, f ∈ createBackup dir ts →
        ∀ g, g ∈ dir ++ [backupName ts] → g ∉ createBackup dir ts →
          strLe g f = true)) ∧
    saveRun [] twelveTimestamps =
      ["otp_data_20250101_000003.json", "otp_data_20250101_000004.json",
       "otp_data_20250101_000005.json", "otp_data_20250101_000006.json",
       "otp_data_20250101_000007.json", "otp_data_20250101_000008.json",
       "otp_data_20250101_000009.json", "otp_data_20250101_000010.json",
       "otp_data_20250101_000011.json", "otp_data_20250101_000012.json"] := by
  constructor
  · intro dir ts hn
    set all := dir ++ [backupName ts] with hall
    have hperm := cleanupOldBackups_spec all hn
    have hsorted := pySorted_sorted all
    have hsort_perm : List.Perm (pySorted all) all := pySorted_perm all
    set sorted := pySorted all with hs
    set kept := sorted.drop (sorted.length - 10) with hk
    have hsplit : sorted.take (sorted.length - 10) ++ kept = sorted :=
      List.take_append_drop _ _
    constructor
    · have hlen : (createBackup dir ts).length = kept.length := hperm.length_eq
      rw [hlen, hk, List.length_drop]
      omega
    · intro f hf g hg hgno
      have hfk : f ∈ kept := hperm.mem_iff.mp hf
      have hgs : g ∈ sorted := hsort_perm.mem_iff.mpr hg
      have hgd : g ∈ sorted.take (sorted.length - 10) := by
        rcases (List.mem_append.mp (hsplit ▸ hgs)) with h | h
        · exact h
        · exact absurd (hperm.mem_iff.mpr h) hgno
      have hpw := hsplit ▸ hsorted
      exact (List.pairwise_append.mp hpw).2.2 g hgd f hfk
  · rfl

/-- Witness for C6 at a concrete directory and timestamp. -/
theorem c6_backup_retention_witness :
    (createBackup ["otp_data_20250101_000001.json"] "20250101_000002").length ≤ 10 :=
  (c6_backup_retention.1 ["otp_data_20250101_000001.json"] "20250101_000002"
    (by decide)).1

/-! ## C7: settings deep merge -/

theorem dictGet_mergeSettingsItem_other (d : List (String × SJson))
    (k1 k : String) (v : SJson) (h : k1 ≠ k) :
    dictGet (mergeSettingsItem d k1 v) k = dictGet d k := by
  have hne : k ≠ k1 := Ne.symm h
  cases v with
  | obj lv =>
      simp only [mergeSettingsItem]
      cases hd : dictGet d k1 with
      | none => rw [dictGet_dictSet_ne d k1 k _ hne]
      | some w =>
          cases w <;> simp only <;> rw [dictGet_dictSet_ne d k1 k _ hne]
  | null => simp only [mergeSettingsItem]; rw [dictGet_dictSet_ne d k1 k _ hne]
  | bool b => simp only [mergeSettingsItem]; rw [dictGet_dictSet_ne d k1 k _ hne]
  | num n => simp only [mergeSettingsItem]; rw [dictGet_dictSet_ne d k1 k _ hne]
  | str s => simp only [mergeSettingsItem]; rw [dictGet_dictSet_ne d k1 k _ hne]

/-- C7: merging a loaded settings document onto the defaults leaves every
key the document does not mention at its default value, overrides a key
held as a dict on both sides key-by-key (recursively), and on the
concrete document `{"window": {"width": 500}}` produces exactly the
default tree with `window.width = 500`: `window.height` stays `700`,
`auto_backup` stays `true`, and every other key keeps its default. -/
theorem c7_settings_deep_merge :
    (∀ (l d : List (String × SJson)) (k : String),
      (∀ p ∈ l, p.1 ≠ k) →
      dictGet (mergeSettings d l) k = dictGet d k) ∧
    (∀ (d : List (String × SJson)) (k : String) (dv lv : List (String × SJson)),
      dictGet d k = some (SJson.obj dv) →
      dictGet (mergeSettingsItem d k (SJson.obj lv)) k =
        some (SJson.obj (mergeSettings dv lv))) ∧
    loadSettings widthOnlyDoc = defaultsWithWidth500 ∧
    settingsGet (loadSettings widthOnlyDoc) "window.width" = some (.num 500) ∧
    settingsGet (loadSettings widthOnlyDoc) "window.height" = some (.num 700) ∧
    settingsGet (loadSettings widthOnlyDoc) "auto_backup" = some (.bool true) := by
  refine ⟨?_, ?_, rfl, rfl, rfl, rfl⟩
  · intro l
    induction l with
    | nil => intro d k h; simp [mergeSettings]
    | cons p rest ih =>
        intro d k h
        obtain ⟨k1, v⟩ := p
        have hk1 : k1 ≠ k := h (k1, v) (List.mem_cons_self _ _)
        simp only [mergeSettings]
        rw [ih _ k (fun q hq => h q (List.mem_cons_of_mem _ hq))]
        exact dictGet_mergeSettingsItem_other d k1 k v hk1
  · intro d k dv lv hd
    simp only [mergeSettingsItem, hd]
    exact dictGet_dictSet_same d k _

/-- Witness for C7's quantified parts at concrete inputs. -/
theorem c7_settings_deep_merge_witness :
    dictGet (mergeSettings defaultSettings widthOnlyDoc) "auto_backup" =
      dictGet defaultSettings "auto_backup" ∧
    dictGet (mergeSettingsItem defaultSettings "window"
        (SJson.obj [("width", SJson.num 500)])) "window" =
      some (SJson.obj (mergeSettings
        [("width", SJson.num 450), ("height", SJson.num 700),
         ("x", SJson.null), ("y", SJson.null)]
        [("width", SJson.num 500)])) :=
  ⟨c7_settings_deep_merge.1 widthOnlyDoc defaultSettings "auto_backup"
    (by decide),
   c7_settings_deep_merge.2.1 defaultSettings "window" _ _ rfl⟩

/-! ## C8: `reset_to_defaults` after a nested `set`

`set("window.width", 999)` walks into the `window` dict that
`_settings = default_settings.copy()` shares with the default tree, so
the in-place assignment also rewrites the default, and a later
`reset_to_defaults()` restores the mutated value `999` instead of the
compiled-in `450`. -/

/-- C8: the claim fails on the code — after `set("window.width", 999)`
on a fresh manager (no settings file), `reset_to_defaults()` leaves
`window.width` at the mutated value `999`, not the compiled-in `450`,
because the shallow copies alias the nested `window` dict. -/
theorem c8_reset_returns_mutated_default :
    (settingsSet settingsInitNoFile "window.width" (SJson.num 999)).2 = true ∧
    settingsHGet c8Run "window.width" = some (.leaf (.num 999)) ∧
    settingsHGet settingsInitNoFile "window.width" = some (.leaf (.num 450)) :=
  ⟨rfl, rfl, rfl⟩

/-! ## C9: import collision renaming

The `while` loop is faithful to the source only because it terminates
within `|entries| + 1` trials; that in turn holds because the candidate
labels `"{base} (1)"`, `"{base} (2)"`, … are pairwise distinct, which
needs the injectivity of `Nat.repr`. -/

theorem digitChar_val : ∀ m, m < 10 → (Nat.digitChar m).toNat - 48 = m := by
  decide

theorem foldl_toDigitsCore (fuel : Nat) :
    ∀ (n acc : Nat) (ds : List Char), n < 10 ^ fuel →
    ∃ k, List.foldl (fun a c => a * 10 + (c.toNat - 48)) acc
        (Nat.toDigitsCore 10 fuel n ds) =
      List.foldl (fun a c => a * 10 + (c.toNat - 48)) (acc * 10 ^ k + n) ds := by
  induction fuel with
  | zero =>
      intro n acc ds h
      have hn : n = 0 := by simpa using Nat.lt_one_iff.mp (by simpa using h)
      subst hn
      exact ⟨0, by simp [Nat.toDigitsCore]⟩
  | succ fuel ih =>
      intro n acc ds h
      simp only [Nat.toDigitsCore]
      by_cases h0 : n / 10 = 0
      · have hlt : n < 10 := by omega
        have hmod : n % 10 = n := Nat.mod_eq_of_lt hlt
        refine ⟨1, ?_⟩
        simp only [h0, if_true, List.foldl_cons]
        rw [digitChar_val (n % 10) (Nat.mod_lt n (by norm_num)), hmod, pow_one]
      · have hlt : n / 10 < 10 ^ fuel := by
          rw [Nat.div_lt_iff_lt_mul (by norm_num : 0 < 10)]
          calc n < 10 ^ (fuel + 1) := h
            _ = 10 ^ fuel * 10 := by rw [pow_succ]
        obtain ⟨k, hk⟩ := ih (n / 10) acc (Nat.digitChar (n % 10) :: ds) hlt
        refine ⟨k + 1, ?_⟩
        simp only [h0, if_false]
        rw [hk]
        simp only [List.foldl_cons]
        rw [digitChar_val (n % 10) (Nat.mod_lt n (by norm_num))]
        congr 1
        have hsplit : 10 * (n / 10) + n % 10 = n := Nat.div_add_mod n 10
        calc (acc * 10 ^ k + n / 10) * 10 + n % 10
            = acc * (10 ^ k * 10) + (10 * (n / 10) + n % 10) := by ring
          _ = acc * 10 ^ (k + 1) + n := by rw [pow_succ, hsplit]

theorem reprVal_repr (n : Nat) : reprVal (Nat.repr n).data = n := by
  have hlt : n < 10 ^ (n + 1) := by
    calc n < 10 ^ n := Nat.lt_pow_self (by norm_num) n
      _ ≤ 10 ^ (n + 1) := Nat.pow_le_pow_right (by norm_num) (Nat.le_succ n)
  obtain ⟨k, hk⟩ := foldl_toDigitsCore (n + 1) n 0 [] hlt
  show List.foldl (fun a c => a * 10 + (c.toNat - 48)) 0
      (Nat.toDigitsCore 10 (n + 1) n []) = n
  rw [hk]
  simp

theorem natRepr_injective (a b : Nat) (h : Nat.repr a = Nat.repr b) : a = b := by
  have := congrArg (fun s => reprVal (String.data s)) h
  simpa [reprVal_repr] using this

theorem candidateLabel_inj (base : String) (c c1 : Nat)
    (h : candidateLabel base c = candidateLabel base c1) : c = c1 := by
  unfold candidateLabel at h
  have hdata := congrArg String.data h
  simp only [String.data_append, List.append_assoc] at hdata
  have h2 := List.append_cancel_left hdata
  have h3 := List.append_cancel_left h2
  have h4 := List.append_cancel_right h3
  exact natRepr_injective c c1 (String.ext h4)

theorem findCounterAux_spec (keys : List String) (base : String) :
    ∀ (fuel c : Nat),
    (∃ i, i < fuel ∧ candidateLabel base (c + i) ∉ keys) →
    candidateLabel base (findCounterAux keys base fuel c) ∉ keys ∧
    c ≤ findCounterAux keys base fuel c ∧
    (∀ j, c ≤ j → j < findCounterAux keys base fuel c →
      candidateLabel base j ∈ keys) := by
  intro fuel
  induction fuel with
  | zero =>
      intro c hex
      obtain ⟨i, hi, _⟩ := hex
      omega
  | succ fuel ih =>
      intro c hex
      by_cases hc : keys.contains (candidateLabel base c)
      · simp only [findCounterAux, hc, if_true]
        have hex1 : ∃ i, i < fuel ∧ candidateLabel base (c + 1 + i) ∉ keys := by
          obtain ⟨i, hi, hni⟩ := hex
          have hi0 : i ≠ 0 := by
            intro h0
            subst h0
            exact hni (by simpa using List.elem_iff.mp hc)
          refine ⟨i - 1, by omega, ?_⟩
          have : c + 1 + (i - 1) = c + i := by omega
          rw [this]
          exact hni
        obtain ⟨h1, h2, h3⟩ := ih (c + 1) hex1
        refine ⟨h1, by omega, ?_⟩
        intro j hj hjlt
        by_cases hjc : j = c
        · subst hjc
          exact List.elem_iff.mp hc
        · exact h3 j (by omega) hjlt
      · have hcf : keys.contains (candidateLabel base c) = false := by
          simpa using hc
        simp only [findCounterAux, hcf, Bool.false_eq_true, if_false]
        refine ⟨?_, Nat.le_refl c, ?_⟩
        · intro hmem
          exact hc (List.elem_iff.mpr hmem)
        · intro j hj hjlt
          omega

theorem findCounter_exists (keys : List String) (base : String) :
    ∃ i, i < keys.length + 1 ∧ candidateLabel base (1 + i) ∉ keys := by
  by_contra hcon
  push_neg at hcon
  have hmaps : ∀ i ∈ Finset.range (keys.length + 1),
      candidateLabel base (1 + i) ∈ keys.toFinset := by
    intro i hi
    rw [List.mem_toFinset]
    exact hcon i (Finset.mem_range.mp hi)
  have hinj : Set.InjOn (fun i => candidateLabel base (1 + i))
      (Finset.range (keys.length + 1)) := by
    intro a _ b _ hab
    have := candidateLabel_inj base (1 + a) (1 + b) hab
    omega
  have hcard := Finset.card_le_card_of_injOn _ hmaps hinj
  rw [Finset.card_range] at hcard
  have := List.toFinset_card_le keys
  omega

/-- C9: importing a parsed entry whose label collides with an existing
one stores it under `"{label} (N)"` for the least `N ≥ 1` whose candidate
does not collide, and two payloads both resolving to `"Work"` come out as
`"Work"` and `"Work (1)"`, in arrival order. -/
theorem c9_import_collision_rename :
    (∀ (m : Manager) (e : OTPEntry),
      dictMem m e.label = true → validSecret e.secret = true →
      ∃ N, 1 ≤ N ∧
        resolveImportLabel m e.label = candidateLabel e.label N ∧
        dictMem m (candidateLabel e.label N) = false ∧
        (∀ j, 1 ≤ j → j < N → dictMem m (candidateLabel e.label j) = true) ∧
        importParsedEntry m e =
          (m ++ [(candidateLabel e.label N,
                  { e with label := candidateLabel e.label N })],
           some (candidateLabel e.label N))) ∧
    importParsed [] [workFirst, workSecond] =
      ([("Work", workFirst), ("Work (1)", { workSecond with label := "Work (1)" })],
       ["Work", "Work (1)"]) := by
  constructor
  · intro m e hmem hval
    obtain ⟨hfree, hone, hleast⟩ := findCounterAux_spec (labels m) e.label
      ((labels m).length + 1) 1 (findCounter_exists (labels m) e.label)
    set N := findCounterAux (labels m) e.label ((labels m).length + 1) 1 with hN
    have hres : resolveImportLabel m e.label = candidateLabel e.label N := rfl
    have hfreeMem : dictMem m (candidateLabel e.label N) = false := by
      rw [← Bool.not_eq_true, dictMem_iff_mem_keys]
      rw [labels_eq_map_fst] at hfree
      exact hfree
    refine ⟨N, hone, hres, hfreeMem, ?_, ?_⟩
    · intro j h1 h2
      rw [dictMem_iff_mem_keys, ← labels_eq_map_fst]
      exact hleast j h1 h2
    · have hok := addEntry_ok m { e with label := candidateLabel e.label N }
        hfreeMem hval
      simp only [importParsedEntry, hmem, if_true, hres, hok]
  · rfl

/-- Witness for C9's quantified part at a concrete collision. -/
theorem c9_import_collision_rename_witness :
    ∃ N, 1 ≤ N ∧
      resolveImportLabel [("Work", workFirst)] workSecond.label =
        candidateLabel workSecond.label N ∧
      dictMem [("Work", workFirst)] (candidateLabel workSecond.label N) = false ∧
      (∀ j, 1 ≤ j → j < N →
        dictMem [("Work", workFirst)] (candidateLabel workSecond.label j) = true) ∧
      importParsedEntry [("Work", workFirst)] workSecond =
        ([("Work", workFirst),
          (candidateLabel workSecond.label N,
           { workSecond with label := candidateLabel workSecond.label N })],
         some (candidateLabel workSecond.label N)) :=
  c9_import_collision_rename.1 [("Work", workFirst)] workSecond rfl rfl

/-! ## C1: code generation ignores the stored algorithm -/

set_option maxRecDepth 100000 in
/-- Counterexample to C1: for a stored entry whose algorithm field is
SHA-256, `generate_otp` returns the HMAC-SHA-1 TOTP value `"996554"` at
time 59, not the HMAC-SHA-256 value `"344551"` over the same secret,
digits and period. -/
theorem c1_counterexample_sha256_ignored :
    entrySha256.algorithm = "SHA256" ∧
    entrySha256.secret = "JBSWY3DPEHPK3PXP" ∧
    entrySha256.digits = 6 ∧
    entrySha256.period = 30 ∧
    generateOtp mgrSha256 "Work" 59 = some "996554" ∧
    pyTotpNow sha1Bytes "JBSWY3DPEHPK3PXP" 6 30 59 = some "996554" ∧
    pyTotpNow sha256Bytes "JBSWY3DPEHPK3PXP" 6 30 59 = some "344551" ∧
    (some "996554" : Option String) ≠ some "344551" :=
  ⟨rfl, rfl, rfl, rfl, rfl, rfl, rfl, by decide⟩

/-- C1 (amended): `generate_otp` computes the TOTP with HMAC-SHA-1 for
every stored entry, whatever its `algorithm` field says — the field is
never passed to the generator, so entries differing only in their
algorithm field produce identical codes. -/
theorem c1_generate_always_sha1 :
    (∀ (m : Manager) (lbl : String) (e : OTPEntry) (t : Nat),
      dictGet m lbl = some e →
      generateOtp m lbl t = pyTotpNow sha1Bytes e.secret e.digits e.period t) ∧
    (∀ (m1 m2 : Manager) (lbl : String) (e1 e2 : OTPEntry) (t : Nat),
      dictGet m1 lbl = some e1 → dictGet m2 lbl = some e2 →
      e1.secret = e2.secret → e1.digits = e2.digits → e1.period = e2.period →
      generateOtp m1 lbl t = generateOtp m2 lbl t) := by
  constructor
  · intro m lbl e t h
    simp [generateOtp, h]
  · intro m1 m2 lbl e1 e2 t h1 h2 hs hd hp
    simp [generateOtp, h1, h2, hs, hd, hp]

/-- Witness for C1's amended statement: the SHA-256-flagged entry and the
same entry with algorithm SHA-1 generate the same code. -/
theorem c1_generate_always_sha1_witness :
    generateOtp mgrSha256 "Work" 59 =
      pyTotpNow sha1Bytes entrySha256.secret entrySha256.digits
        entrySha256.period 59 ∧
    generateOtp mgrSha256 "Work" 59 = generateOtp [("Work", workFirst)] "Work" 59 :=
  ⟨c1_generate_always_sha1.1 mgrSha256 "Work" entrySha256 59 rfl,
   c1_generate_always_sha1.2 mgrSha256 [("Work", workFirst)] "Work" entrySha256
     workFirst 59 rfl rfl rfl rfl rfl⟩

/-! ## C2: JSON export / URI-first import round trip -/

end EasyOtp
